import Mathlib

/-!
Verification of the vedabase-notes-agent core against its specification.

Python strings are modelled as `List Char` (ASCII-faithful for the
character classes the code uses).  Pure functions of the repository
(`chunk_text._chunk_record`, `retriever.citation_label`,
`verifier.rule_check`, `verifier.llm_check`, `notes_agent.generate_notes`,
`jobs.start_job` / `_run_job` / `get_all_jobs` / `has_running_jobs`) are
translated into executable Lean definitions, and the spec's claims are
settled as theorems about those definitions.
-/

namespace VedabaseNotes

/-! ## Character model

ASCII models of Python's whitespace class (`str.strip`, regex `\s`),
word class (regex `\w`) and case conversion (`str.capitalize`,
`re.IGNORECASE`). -/

/-- ASCII whitespace, as recognised by Python `str.strip()` and regex `\s`:
space, tab, newline, vertical tab, form feed, carriage return. -/
def isSpaceChar (c : Char) : Bool :=
  c.toNat = 32 || c.toNat = 9 || c.toNat = 10 || c.toNat = 11 ||
  c.toNat = 12 || c.toNat = 13

/-- ASCII word character, as recognised by Python regex `\w`:
letters, digits, underscore. -/
def isWordChar (c : Char) : Bool :=
  (65 ≤ c.toNat && c.toNat ≤ 90) || (97 ≤ c.toNat && c.toNat ≤ 122) ||
  (48 ≤ c.toNat && c.toNat ≤ 57) || c.toNat = 95

/-- ASCII lower-casing of one character (Python `str.lower` restricted to ASCII). -/
def toLowerChar (c : Char) : Char :=
  if 65 ≤ c.toNat && c.toNat ≤ 90 then Char.ofNat (c.toNat + 32) else c

/-- ASCII upper-casing of one character (Python `str.upper` restricted to ASCII). -/
def toUpperChar (c : Char) : Char :=
  if 97 ≤ c.toNat && c.toNat ≤ 122 then Char.ofNat (c.toNat - 32) else c

/-! ## Python `str.strip` on `List Char` -/

/-- Python `str.strip()` (ASCII whitespace model): drop leading and
trailing whitespace. -/
def pyStrip (l : List Char) : List Char :=
  ((l.dropWhile isSpaceChar).reverse.dropWhile isSpaceChar).reverse

/-! ## Data model and chunker (`chunk/chunk_text.py`) -/

/-- One clean record of the book, as consumed by `_chunk_record`
(fields of the JSONL schema that the chunker reads). -/
structure VerseRecord where
  id : List Char
  book : List Char
  verse_number : List Char
  verse_sanskrit : List Char
  translation : List Char
  purport : List Char
  source_uri : List Char
deriving DecidableEq, Repr

/-- One output chunk of `_chunk_record` (the chunk JSONL schema). -/
structure Chunk where
  chunk_id : List Char
  parent_id : List Char
  book : List Char
  verse_number : List Char
  sectionName : List Char
  text : List Char
  source_uri : List Char
deriving DecidableEq, Repr

/-- `PURPORT_SPLIT_CHARS` from `chunk_text.py`. -/
def PURPORT_SPLIT_CHARS : Nat := 1200

/-- `OVERLAP_CHARS` from `chunk_text.py`. -/
def OVERLAP_CHARS : Nat := 200

def translationSec : List Char := "translation".toList

def purportSec : List Char := "purport".toList

def prefaceSec : List Char := "preface".toList

/-- The nested `make_chunk` helper of `_chunk_record`: builds one chunk,
stripping the text, with an ordinal suffix on the id only when `part > 0`. -/
def makeChunk (parent book verse uri sec text : List Char) (part : Nat) : Chunk :=
  { chunk_id := parent ++ "-".toList ++ sec ++
      (if 0 < part then "-".toList ++ (Nat.repr part).toList else []),
    parent_id := parent,
    book := book,
    verse_number := verse,
    sectionName := sec,
    text := pyStrip text,
    source_uri := uri }

/-- Python `text.split("\n\n")`: split on each non-overlapping
blank-line separator, scanning left to right. -/
def splitOnBlank : List Char → List (List Char)
  | '\n' :: '\n' :: rest => [] :: splitOnBlank rest
  | c :: rest =>
    match splitOnBlank rest with
    | [] => [[c]]
    | h :: t => (c :: h) :: t
  | [] => [[]]

/-- The `translation_text` accumulator of `_chunk_record`:
`"Transliteration: ..."` when the record has Sanskrit (a Python-truthy,
i.e. non-empty, string), plus `"Translation: ..."` when it has a
translation. -/
def transText (r : VerseRecord) : List Char :=
  (if r.verse_sanskrit ≠ [] then
    "Transliteration: ".toList ++ r.verse_sanskrit ++ "\n\n".toList else []) ++
  (if r.translation ≠ [] then "Translation: ".toList ++ r.translation else [])

/-- The preface branch of `_chunk_record`: paragraphs (blank-line split,
stripped, empties discarded), numbered from 1, kept when longer than 50
characters. -/
def prefaceChunksOf (r : VerseRecord) : List Chunk :=
  let paragraphs := ((splitOnBlank r.purport).map pyStrip).filter (fun p => !p.isEmpty)
  ((paragraphs.enum.map (fun ip => (ip.1 + 1, ip.2))).filter
      (fun ip => 50 < ip.2.length)).map
    (fun ip => makeChunk r.id r.book r.verse_number r.source_uri prefaceSec ip.2 ip.1)

/-- `_chunk_record` from `chunk_text.py`: split one clean record into
chunks.  Preface records are split by paragraph (paragraphs of more than
50 characters only); other records yield an optional translation chunk
and zero, one or two purport chunks. -/
def chunkRecord (r : VerseRecord) : List Chunk :=
  if r.verse_number = prefaceSec then
    prefaceChunksOf r
  else
    (if pyStrip (transText r) ≠ [] then
      [makeChunk r.id r.book r.verse_number r.source_uri translationSec (transText r) 0]
    else []) ++
    (if pyStrip r.purport = [] then []
     else if (pyStrip r.purport).length ≤ PURPORT_SPLIT_CHARS then
       [makeChunk r.id r.book r.verse_number r.source_uri purportSec (pyStrip r.purport) 0]
     else
       [makeChunk r.id r.book r.verse_number r.source_uri purportSec
          ((pyStrip r.purport).take ((pyStrip r.purport).length / 2 + OVERLAP_CHARS)) 1,
        makeChunk r.id r.book r.verse_number r.source_uri purportSec
          ((pyStrip r.purport).drop ((pyStrip r.purport).length / 2 - OVERLAP_CHARS)) 2])

/-- The purport-section chunks of a record, in emission order. -/
def purportChunks (r : VerseRecord) : List Chunk :=
  (chunkRecord r).filter (fun c => c.sectionName == purportSec)

/-- The translation-section chunks of a record. -/
def translationChunks (r : VerseRecord) : List Chunk :=
  (chunkRecord r).filter (fun c => c.sectionName == translationSec)

/-! ## Retriever (`retrieve/retriever.py`) -/

/-- Python `str.capitalize()` (ASCII model): first character upper-cased,
the rest lower-cased. -/
def pyCapitalize : List Char → List Char
  | [] => []
  | c :: cs => toUpperChar c :: cs.map toLowerChar

/-- One retrieval hit, with the fields `citation_label` reads.  The
`distance` float of the full schema is not modelled (floating point,
unused by the functions verified here). -/
structure Hit where
  text : List Char
  chunk_id : List Char
  verse_number : List Char
  sectionName : List Char
  source_uri : List Char
deriving DecidableEq, Repr

/-- `citation_label` from `retriever.py`: the short citation string
`[NOI <verse.capitalize()> <section.capitalize()>]`. -/
def citationLabel (h : Hit) : List Char :=
  "[NOI ".toList ++ pyCapitalize h.verse_number ++ " ".toList ++
    pyCapitalize h.sectionName ++ "]".toList

/-! ## Verifier rule check (`agent/verifier.py`)

`CITATION_RE = \[NOI\s+\w+\s+\w+\]|\[NOI\s+Preface\]` with
`re.IGNORECASE`.  Because `\s` and `\w` are disjoint character classes and
neither contains `]`, the backtracking regex engine is equivalent to
maximal-munch scanning, which is what the matcher below implements. -/

/-- `REQUIRED_SECTIONS` from `verifier.py`. -/
def REQUIRED_SECTIONS : List (List Char) :=
  ["## Outline".toList, "## Detailed Notes".toList,
   "## Practical Applications".toList, "## Discussion Prompts".toList,
   "## Appendix".toList]

/-- `EXCERPT_MAX_CHARS` from `config.py`. -/
def EXCERPT_MAX_CHARS : Nat := 300

/-- The required headings not occurring in the notes (Python
`[s for s in REQUIRED_SECTIONS if s not in notes]`). -/
def missingSections (notes : List Char) : List (List Char) :=
  REQUIRED_SECTIONS.filter (fun s => !(decide (s <:+: notes)))

/-- Case-insensitive literal match; returns the rest of the input. -/
def matchLitCI : List Char → List Char → Option (List Char)
  | [], l => some l
  | _ :: _, [] => none
  | p :: ps, c :: cs =>
    if toLowerChar p = toLowerChar c then matchLitCI ps cs else none

/-- One-or-more run of characters satisfying `p` (maximal munch);
returns the rest of the input. -/
def spanPlus (p : Char → Bool) : List Char → Option (List Char)
  | [] => none
  | c :: cs => if p c then some (cs.dropWhile p) else none

/-- Match one expected character; returns the rest of the input. -/
def expectChar (a : Char) : List Char → Option (List Char)
  | [] => none
  | c :: cs => if c = a then some cs else none

/-- First alternative of `CITATION_RE`: `\[NOI\s+\w+\s+\w+\]`. -/
def matchCitationWord (l : List Char) : Option (List Char) :=
  ((((matchLitCI "[NOI".toList l).bind (spanPlus isSpaceChar)).bind
      (spanPlus isWordChar)).bind (spanPlus isSpaceChar)).bind
    (fun l4 => (spanPlus isWordChar l4).bind (expectChar ']'))

/-- Second alternative of `CITATION_RE`: `\[NOI\s+Preface\]`. -/
def matchCitationPre (l : List Char) : Option (List Char) :=
  ((matchLitCI "[NOI".toList l).bind (spanPlus isSpaceChar)).bind
    (fun l2 => (matchLitCI "Preface".toList l2).bind (expectChar ']'))

/-- Match `CITATION_RE` at the current position (alternatives tried left
to right, as the regex engine does). -/
def matchCitationAt (l : List Char) : Option (List Char) :=
  match matchCitationWord l with
  | some r => some r
  | none => matchCitationPre l

/-- Fuel-driven scan counting non-overlapping matches of `CITATION_RE`
left to right (`CITATION_RE.findall(notes)` length).  Every successful
match consumes at least one character, so `notes.length` fuel suffices. -/
def countCitationsAux : Nat → List Char → Nat
  | 0, _ => 0
  | _ + 1, [] => 0
  | fuel + 1, c :: cs =>
    match matchCitationAt (c :: cs) with
    | some r => 1 + countCitationsAux fuel r
    | none => countCitationsAux fuel cs

/-- `len(CITATION_RE.findall(notes))` from `rule_check`. -/
def countCitations (notes : List Char) : Nat :=
  countCitationsAux notes.length notes

/-- Match the excerpt pattern `>\s*"([^"]+)"` at the current position;
returns the captured group and the rest of the input. -/
def matchExcerptAt (l : List Char) : Option (List Char × List Char) :=
  match l with
  | '>' :: rest =>
    match rest.dropWhile isSpaceChar with
    | '"' :: rest3 =>
      let grp := rest3.takeWhile (fun c => !(c = '"' : Bool))
      match grp, rest3.dropWhile (fun c => !(c = '"' : Bool)) with
      | [], _ => none
      | g :: gs, '"' :: rest5 => some (g :: gs, rest5)
      | _ :: _, _ => none
    | _ => none
  | _ => none

/-- Fuel-driven scan for `re.findall(r'...', notes)` capturing groups of
the excerpt pattern. -/
def findExcerptsAux : Nat → List Char → List (List Char)
  | 0, _ => []
  | _ + 1, [] => []
  | fuel + 1, c :: cs =>
    match matchExcerptAt (c :: cs) with
    | some (g, r) => g :: findExcerptsAux fuel r
    | none => findExcerptsAux fuel cs

/-- All block-quoted excerpts of the notes (`re.findall` of the excerpt
pattern in `rule_check`). -/
def findExcerpts (notes : List Char) : List (List Char) :=
  findExcerptsAux notes.length notes

/-- The excerpts longer than `EXCERPT_MAX_CHARS`. -/
def longExcerptsOf (notes : List Char) : List (List Char) :=
  (findExcerpts notes).filter (fun e => EXCERPT_MAX_CHARS < e.length)

/-- One issue string appended by `rule_check`, modelled structurally
(constructor argument = the data interpolated into the f-string). -/
inductive Issue where
  | missingSecs (sections : List (List Char))
  | tooFewCitations (found : Nat)
  | longExcerpts (count : Nat)
deriving DecidableEq, Repr

/-- The dict returned by `rule_check`. -/
structure RuleResult where
  sections_ok : Bool
  citations_ok : Bool
  excerpts_ok : Bool
  citation_count : Nat
  issues : List Issue
  pass : Bool
deriving DecidableEq, Repr

/-- `rule_check` from `verifier.py`. -/
def ruleCheck (notes : List Char) : RuleResult :=
  let missing := missingSections notes
  let count := countCitations notes
  let longEx := longExcerptsOf notes
  let issues :=
    (if missing.isEmpty then [] else [Issue.missingSecs missing]) ++
    (if count < 3 then [Issue.tooFewCitations count] else []) ++
    (if longEx.isEmpty then [] else [Issue.longExcerpts longEx.length])
  { sections_ok := missing.isEmpty,
    citations_ok := decide (3 ≤ count),
    excerpts_ok := longEx.isEmpty,
    citation_count := count,
    issues := issues,
    pass := issues.isEmpty }

/-! ## Verifier LLM check (`verifier.llm_check`)

JSON parsing (`json.loads`) is abstracted as a parameter
`parseJson : List Char → Option J`: `some` models a successful parse,
`none` models `json.JSONDecodeError`.  The response argument models
`response.content[0].text` of the API reply. -/

/-- Result value of `llm_check`: either the parsed JSON of the model
reply, or one of the two literal dicts the function builds itself. -/
inductive LlmVerdict (J : Type) where
  | fromJson (j : J)
  | fixedResult (pass : Bool) (issues : List (List Char))
deriving DecidableEq, Repr

/-- Outcome of `llm_check`: whether an API call was made, and the
returned dict. -/
structure LlmCheckOut (J : Type) where
  madeCall : Bool
  verdict : LlmVerdict J
deriving DecidableEq, Repr

/-- Issue string of the no-credential skip branch. -/
def skipIssue : List Char := "LLM check skipped — no API key".toList

/-- Message stem of the parse-failure branch. -/
def parseIssueMark : List Char := "Could not parse verifier response: ".toList

/-- The two `re.sub` fence strips of `llm_check`: drop a leading
"```json" plus following whitespace, then a trailing "```" plus the
whitespace run before it (the input is already stripped, so `$` is
end-of-string). -/
def stripFence (raw : List Char) : List Char :=
  let r1 := if "```json".toList <+: raw then (raw.drop 7).dropWhile isSpaceChar else raw
  if "```".toList <:+ r1 then
    ((r1.take (r1.length - 3)).reverse.dropWhile isSpaceChar).reverse
  else r1

/-- `llm_check` from `verifier.py`. -/
def llmCheck {J : Type} (parseJson : List Char → Option J) (apiKey : List Char)
    (responseText : List Char) : LlmCheckOut J :=
  if apiKey = [] then ⟨false, .fixedResult true [skipIssue]⟩
  else
    let raw := stripFence (pyStrip responseText)
    match parseJson raw with
    | some j => ⟨true, .fromJson j⟩
    | none => ⟨true, .fixedResult false [parseIssueMark ++ raw.take 200]⟩

/-! ## Notes agent (`agent/notes_agent.py`)

`generate_notes` is modelled to the decision structure the claims are
about: the two precondition checks, the LLM call sequence, and the
verification footer.  LLM replies (`plan`, `draft`) enter as parameters;
the LLM verifier result enters as its two projections
`llm_result.get("pass", True)` / `llm_result.get("issues", [])`. -/

/-- A Python exception value.  `emptyIndexError` is the error name used
by the specification for the zero-hits failure; the code base defines no
such exception class, it is included so the spec claim is statable.
`attributeError`, `keyError` and `typeError` model the exceptions the
job-listing code can raise outside its `try/except`. -/
inductive PyErr where
  | valueError (msg : List Char)
  | runtimeError (msg : List Char)
  | emptyIndexError (msg : List Char)
  | attributeError
  | keyError (key : List Char)
  | typeError
deriving DecidableEq, Repr

/-- Is the exception the spec's `EmptyIndexError`? -/
def isEmptyIndexError : PyErr → Bool
  | .emptyIndexError _ => true
  | _ => false

/-- One LLM API call made by the agent pipeline. -/
inductive LlmCall where
  | plan
  | draft
  | verifyCheck
deriving DecidableEq, Repr

/-- Message of the missing-credential `ValueError`. -/
def apiKeyErrMsg : List Char :=
  ("CLAUDE_API_KEY is not set. Add it to your .env file.\n" ++
   "Get a key at: https://console.anthropic.com").toList

/-- Message of the zero-hits `RuntimeError`. -/
def noChunksErrMsg : List Char :=
  ("No chunks found in the vector database. " ++
   "Have you run all pipeline steps? Try: chunk → index → generate-notes").toList

/-- `_verification_footer` from `notes_agent.py`, with rule issues
rendered through `issueText`. -/
def issueText : Issue → List Char
  | .missingSecs secs => "Missing sections: ".toList ++
      [Char.ofNat 91] ++
      (List.intersperse ", ".toList (secs.map
        (fun s => [Char.ofNat 39] ++ s ++ [Char.ofNat 39]))).flatten ++
      [Char.ofNat 93]
  | .tooFewCitations n => "Too few citations (".toList ++ (Nat.repr n).toList ++
      " found — expected at least 3). Every key point should have a citation.".toList
  | .longExcerpts n => (Nat.repr n).toList ++ " excerpt(s) exceed ".toList ++
      (Nat.repr EXCERPT_MAX_CHARS).toList ++ " chars.".toList

def verificationFooter (r : RuleResult) (llmPass : Bool)
    (llmIssues : List (List Char)) : List Char :=
  let status := if r.pass && llmPass then "PASSED".toList else "WARNINGS".toList
  let issues := r.issues.map issueText ++ llmIssues
  "\n\n---\n\n## Verification (".toList ++ status ++ ")\n".toList ++
  "- Citations found: ".toList ++ (Nat.repr r.citation_count).toList ++ "\n".toList ++
  "- Sections check: ".toList ++ (if r.sections_ok then "✓" else "✗").toList ++ "\n".toList ++
  "- Excerpts check: ".toList ++ (if r.excerpts_ok then "✓" else "✗").toList ++ "\n".toList ++
  (if issues.isEmpty then [] else
    "\n**Issues found:**\n".toList ++
    (issues.map (fun i => "- ".toList ++ i ++ "\n".toList)).flatten)

/-- `generate_notes` from `notes_agent.py`: returns the produced notes
(or the raised exception) together with the sequence of LLM calls made. -/
def generateNotes (apiKey : List Char) (hits : List Hit)
    (planResp draftResp : List Char) (llmPass : Bool)
    (llmIssues : List (List Char)) : Except PyErr (List Char) × List LlmCall :=
  if apiKey = [] then (.error (.valueError apiKeyErrMsg), [])
  else if hits = [] then (.error (.runtimeError noChunksErrMsg), [])
  else
    -- the plan reply feeds only the draft prompt, which is not modelled
    let notes := draftResp
    let ruleResult := ruleCheck notes
    -- `llm_check(notes)` always makes its call here since the key is set
    (.ok (notes ++ verificationFooter ruleResult llmPass llmIssues),
     [.plan, .draft, .verifyCheck])

/-! ## Job manager (`jobs.py`)

One JSON file per job in the jobs directory is modelled as an
association list from job id to record; `_write_job` overwrites the file
of its id.  `uuid.uuid4()[:8]` enters `start_job` as a parameter, and
`datetime.now().isoformat()` as explicit `created` / `now` arguments. -/

/-- One job record (the JSON schema written by `jobs.py`). -/
structure Job where
  job_id : List Char
  topic : List Char
  audience : List Char
  duration : Int
  style : List Char
  status : List Char
  created_at : List Char
  completed_at : Option (List Char)
  result_path : Option (List Char)
  error : Option (List Char)
deriving DecidableEq, Repr

def runningStatus : List Char := "running".toList

def doneStatus : List Char := "done".toList

def errorStatus : List Char := "error".toList

/-- The jobs directory: id ↦ parsed record. -/
def JobStore : Type := List (List Char × Job)

/-- `_write_job`: overwrite the record file of `jid`. -/
def writeJob (s : JobStore) (jid : List Char) (j : Job) : JobStore :=
  (jid, j) :: s.filter (fun kv => !(kv.1 == jid))

/-- `get_job`: read one record file, `none` when absent. -/
def getJob (s : JobStore) (jid : List Char) : Option Job :=
  (s.find? (fun kv => kv.1 == jid)).map (fun kv => kv.2)

/-- The initial record `start_job` writes before launching the thread. -/
def initialJob (jid topic audience : List Char) (duration : Int)
    (style created : List Char) : Job :=
  { job_id := jid,
    topic := topic,
    audience := audience,
    duration := duration,
    style := style,
    status := runningStatus,
    created_at := created,
    completed_at := none,
    result_path := none,
    error := none }

/-- `start_job`: write the initial `running` record durably, then launch
the background thread; returns the job id. -/
def startJob (s : JobStore) (jid topic audience : List Char) (duration : Int)
    (style created : List Char) : List Char × JobStore :=
  (jid, writeJob s jid (initialJob jid topic audience duration style created))

/-- Outcome of the background body of `_run_job`:
`ok path` = `export_notes` returned `path`; `error msg` = some step
raised and `str(exc) = msg`. -/
def RunOutcome : Type := Except (List Char) (List Char)

/-- The `{}` fallback of `_update_job` when the record file is missing. -/
def blankJob : Job :=
  { job_id := [], topic := [], audience := [], duration := 0, style := [],
    status := [], created_at := [], completed_at := none,
    result_path := none, error := none }

/-- The field updates `_run_job` applies at its single terminal
transition. -/
def terminalUpdate (outcome : RunOutcome) (now : List Char) (j : Job) : Job :=
  match outcome with
  | .ok path => { j with status := doneStatus, completed_at := some now,
                         result_path := some path }
  | .error msg => { j with status := errorStatus, error := some msg }

/-- `_run_job`'s effect on the store: one `_update_job`
(read-modify-write) with the terminal fields. -/
def finishJob (s : JobStore) (jid : List Char) (outcome : RunOutcome)
    (now : List Char) : JobStore :=
  writeJob s jid (terminalUpdate outcome now ((getJob s jid).getD blankJob))

/-! ### Job listing

The `try/except` of `get_all_jobs` covers only the file read and
`json.loads`; everything past `jobs.append(...)` runs unguarded.  A file
whose content is valid JSON but not a job-record dict therefore reaches
`sorted(jobs, key=lambda j: j.get("created_at", ""), reverse=True)` and
raises there, so job files are modelled as decoded JSON values and the
listing operations as `Except`-valued functions. -/

/-- A JSON value as decoded by `json.loads` (the shapes a job file can
hold).  `dict` entries model a decoded JSON object, keys unique. -/
inductive PyVal where
  | dict (entries : List (List Char × PyVal))
  | str (s : List Char)
  | num (n : Int)
  | list (items : List PyVal)
  | bool (b : Bool)
  | null

/-- One file of the jobs directory as seen by the `try` body of
`get_all_jobs`: `corrupt` = the read or `json.loads` raised (swallowed
by the bare `except`); `parsed v` = the file decoded to JSON value `v`. -/
inductive JobFile where
  | corrupt
  | parsed (v : PyVal)

def lookupEntry : List (List Char × PyVal) → List Char → Option PyVal
  | [], _ => none
  | (k, v) :: es, key => if k = key then some v else lookupEntry es key

/-- Python `j.get(key, default)`: the entry or the default for a dict,
`AttributeError` for any non-dict value. -/
def pyGetDefault (j : PyVal) (key : List Char) (dflt : PyVal) :
    Except PyErr PyVal :=
  match j with
  | .dict es => .ok ((lookupEntry es key).getD dflt)
  | _ => .error .attributeError

/-- Python `j[key]` for a string key: the entry for a dict holding it,
`KeyError` for a dict without it, `TypeError` for any non-dict value. -/
def pyIndexStr (j : PyVal) (key : List Char) : Except PyErr PyVal :=
  match j with
  | .dict es =>
    match lookupEntry es key with
    | some v => .ok v
    | none => .error (.keyError key)
  | _ => .error .typeError

/-- Python string comparison `a < b` (lexicographic on code points). -/
def strLt : List Char → List Char → Bool
  | [], [] => false
  | [], _ :: _ => true
  | _ :: _, [] => false
  | a :: as, b :: bs => if a = b then strLt as bs else decide (a < b)

/-- Python `<` on sort keys, for the key shapes job files produce: two
strings or two numbers compare, every other pairing is modelled as
`TypeError` (CPython orders a few more mixes, e.g. bools with numbers;
no statement proved here depends on those). -/
def pyValLt : PyVal → PyVal → Except PyErr Bool
  | .str a, .str b => .ok (strLt a b)
  | .num a, .num b => .ok (decide (a < b))
  | _, _ => .error .typeError

/-- Stable descending insertion by the precomputed sort key
(second component), propagating comparison errors. -/
def insertByKeyDesc (x : PyVal × PyVal) :
    List (PyVal × PyVal) → Except PyErr (List (PyVal × PyVal))
  | [] => .ok [x]
  | y :: ys =>
    match pyValLt x.2 y.2 with
    | .error e => .error e
    | .ok true => (insertByKeyDesc x ys).map (fun l => y :: l)
    | .ok false => .ok (x :: y :: ys)

/-- `sorted(..., key=..., reverse=True)` on precomputed (value, key)
pairs: a stable insertion sort, which agrees with Python's stable sort
whenever the keys are totally ordered (as the all-string keys of real
job records are). -/
def sortByKeyDesc : List (PyVal × PyVal) → Except PyErr (List (PyVal × PyVal))
  | [] => .ok []
  | x :: xs =>
    match sortByKeyDesc xs with
    | .error e => .error e
    | .ok l => insertByKeyDesc x l

/-- The values successfully decoded from the directory - exactly the
`jobs` list after the `try/except` loop of `get_all_jobs`. -/
def jobValues (files : List JobFile) : List PyVal :=
  files.filterMap (fun f =>
    match f with
    | .corrupt => none
    | .parsed v => some v)

/-- `sorted` computes `j.get("created_at", "")` for every element (in
list order) before comparing; the first non-dict raises
`AttributeError` here. -/
def jobsWithKeys : List PyVal → Except PyErr (List (PyVal × PyVal))
  | [] => .ok []
  | j :: js =>
    match pyGetDefault j "created_at".toList (.str []) with
    | .error e => .error e
    | .ok k =>
      match jobsWithKeys js with
      | .error e => .error e
      | .ok rest => .ok ((j, k) :: rest)

/-- `get_all_jobs`: unreadable or JSON-invalid files are skipped by the
bare `except`; the decoded values are then sorted newest-first outside
the `try`, which can raise. -/
def getAllJobs (files : List JobFile) : Except PyErr (List PyVal) :=
  match jobsWithKeys (jobValues files) with
  | .error e => .error e
  | .ok wk =>
    match sortByKeyDesc wk with
    | .error e => .error e
    | .ok sortedPairs => .ok (sortedPairs.map (fun p => p.1))

/-- The generator of `has_running_jobs`:
`any(j["status"] == "running" for j in ...)` - short-circuits on the
first hit, raises `KeyError`/`TypeError` from `j["status"]` otherwise. -/
def hasRunningAux : List PyVal → Except PyErr Bool
  | [] => .ok false
  | j :: js =>
    match pyIndexStr j "status".toList with
    | .error e => .error e
    | .ok (.str s) => if s = runningStatus then .ok true else hasRunningAux js
    | .ok _ => hasRunningAux js

/-- `has_running_jobs`, propagating whatever `get_all_jobs` raises. -/
def hasRunningJobs (files : List JobFile) : Except PyErr Bool :=
  match getAllJobs files with
  | .error e => .error e
  | .ok jobs => hasRunningAux jobs

/-- Is this decoded value a record `get_all_jobs` can always list: a
dict whose `created_at` is absent or a string (what `_write_job`
writes)? -/
def goodJobVal : PyVal → Bool
  | .dict es =>
    match lookupEntry es "created_at".toList with
    | some (.str _) => true
    | none => true
    | some _ => false
  | _ => false

/-- A directory entry that cannot make `get_all_jobs` raise: unreadable
or JSON-invalid (skipped), or a well-formed record. -/
def goodFile : JobFile → Bool
  | .corrupt => true
  | .parsed v => goodJobVal v

/-- Is the decoded value a JSON string? -/
def isStrVal : PyVal → Bool
  | .str _ => true
  | _ => false

/-! ## Helper lemmas -/

theorem toNat_charOfNat {n : Nat} (h : n < 55296) : (Char.ofNat n).toNat = n := by
  unfold Char.ofNat
  rw [dif_pos (Or.inl h)]
  rfl

theorem isWordChar_toLowerChar {c : Char} (h : isWordChar c = true) :
    isWordChar (toLowerChar c) = true := by
  unfold toLowerChar
  split
  · rename_i hc
    simp only [Bool.and_eq_true, decide_eq_true_eq] at hc
    have hlt : c.toNat + 32 < 55296 := by omega
    simp only [isWordChar, toNat_charOfNat hlt]
    simp only [Bool.or_eq_true, Bool.and_eq_true, decide_eq_true_eq]
    omega
  · exact h

theorem isWordChar_toUpperChar {c : Char} (h : isWordChar c = true) :
    isWordChar (toUpperChar c) = true := by
  unfold toUpperChar
  split
  · rename_i hc
    simp only [Bool.and_eq_true, decide_eq_true_eq] at hc
    have hlt : c.toNat - 32 < 55296 := by omega
    simp only [isWordChar, toNat_charOfNat hlt]
    simp only [Bool.or_eq_true, Bool.and_eq_true, decide_eq_true_eq]
    omega
  · exact h

theorem not_isSpaceChar_of_isWordChar {c : Char} (h : isWordChar c = true) :
    isSpaceChar c = false := by
  simp only [isWordChar, Bool.or_eq_true, Bool.and_eq_true, decide_eq_true_eq] at h
  simp only [isSpaceChar, Bool.or_eq_false_iff, decide_eq_false_iff_not]
  omega

theorem dropWhile_dropWhile (p : Char → Bool) (l : List Char) :
    (l.dropWhile p).dropWhile p = l.dropWhile p := by
  induction l with
  | nil => rfl
  | cons c cs ih =>
    by_cases h : p c
    · simp [List.dropWhile_cons, h, ih]
    · simp [List.dropWhile_cons, h]

theorem dropWhile_append_of_forall {p : Char → Bool} {xs : List Char}
    (h : ∀ c ∈ xs, p c = true) (ys : List Char) :
    (xs ++ ys).dropWhile p = ys.dropWhile p := by
  induction xs with
  | nil => rfl
  | cons c cs ih =>
    have hc : p c = true := h c (List.mem_cons_self c cs)
    simp only [List.cons_append, List.dropWhile_cons, hc, if_pos]
    exact ih (fun x hx => h x (List.mem_cons_of_mem c hx))

theorem pyStrip_eq_nil_of_forall {l : List Char}
    (h : ∀ c ∈ l, isSpaceChar c = true) : pyStrip l = [] := by
  unfold pyStrip
  have h1 : l.dropWhile isSpaceChar = [] := List.dropWhile_eq_nil_iff.mpr h
  simp [h1]

theorem pyStrip_ne_nil_of_mem {l : List Char} {c : Char}
    (hc : c ∈ l) (hw : isSpaceChar c = false) : pyStrip l ≠ [] := by
  intro hnil
  unfold pyStrip at hnil
  rw [List.reverse_eq_nil_iff, List.dropWhile_eq_nil_iff] at hnil
  rcases List.eq_nil_or_concat (l.dropWhile isSpaceChar) with h1 | ⟨_, _, _⟩
  · rw [List.dropWhile_eq_nil_iff] at h1
    rw [h1 c hc] at hw
    exact absurd hw (by decide)
  · -- every member of the reverse is whitespace, so every member of
    -- `l.dropWhile isSpaceChar` is whitespace, hence so is every member of `l`
    have hall : ∀ x ∈ l.dropWhile isSpaceChar, isSpaceChar x = true := by
      intro x hx
      exact hnil x (List.mem_reverse.mpr hx)
    have : ∀ x ∈ l, isSpaceChar x = true := by
      intro x hx
      by_cases hsx : isSpaceChar x = true
      · exact hsx
      · exfalso
        have hx' : x ∈ l.takeWhile isSpaceChar ++ l.dropWhile isSpaceChar := by
          rw [List.takeWhile_append_dropWhile]
          exact hx
        rcases List.mem_append.mp hx' with h2 | h2
        · exact hsx (List.mem_takeWhile_imp h2)
        · exact hsx (hall x h2)
    rw [this c hc] at hw
    exact absurd hw (by decide)

/-- The leading-whitespace run of a strip result is empty. -/
theorem dropWhile_pyStrip (l : List Char) :
    (pyStrip l).dropWhile isSpaceChar = pyStrip l := by
  unfold pyStrip
  rcases h : (l.dropWhile isSpaceChar) with _ | ⟨c, cs⟩
  · simp
  · have hc : isSpaceChar c = false := by
      have := List.head?_dropWhile_not isSpaceChar l
      rw [h] at this
      simpa using this
    -- the reverse of the trailing strip is a prefix of `c :: cs`, so it is
    -- either empty or starts with `c`, which is not whitespace
    have hpre : ((c :: cs).reverse.dropWhile isSpaceChar).reverse <+: (c :: cs) := by
      have hsuf : (c :: cs).reverse.dropWhile isSpaceChar <:+ (c :: cs).reverse :=
        List.dropWhile_suffix isSpaceChar
      have := List.reverse_prefix.mpr (by simpa using hsuf)
      simpa using this
    rcases hpre with ⟨t, ht⟩
    rcases h2 : ((c :: cs).reverse.dropWhile isSpaceChar).reverse with _ | ⟨d, ds⟩
    · simp
    · rw [h2] at ht
      have hd : d = c := by
        have := congrArg List.head? ht
        simpa using this
    -- head is `c`, not whitespace, so dropWhile keeps everything
      rw [List.dropWhile_cons, hd, hc]
      simp

/-- The trailing-whitespace run of a strip result is empty. -/
theorem dropWhile_reverse_pyStrip (l : List Char) :
    (pyStrip l).reverse.dropWhile isSpaceChar = (pyStrip l).reverse := by
  unfold pyStrip
  rw [List.reverse_reverse]
  exact dropWhile_dropWhile _ _

theorem pyStrip_idem (l : List Char) : pyStrip (pyStrip l) = pyStrip l := by
  conv_lhs => rw [pyStrip, dropWhile_pyStrip, dropWhile_reverse_pyStrip]
  rw [List.reverse_reverse]

/-- A suffix whose head is not dropped survives `dropWhile`. -/
theorem suffix_dropWhile {p : Char → Bool} {s l : List Char}
    (hs : s <:+ l) (hhead : s.dropWhile p = s) (hne : s ≠ []) :
    s <:+ l.dropWhile p := by
  induction l with
  | nil =>
    rw [List.suffix_nil] at hs
    exact absurd hs hne
  | cons x t ih =>
    rcases List.suffix_cons_iff.mp hs with h | h
    · rw [← h, hhead]
    · rw [List.dropWhile_cons]
      by_cases hx : p x
      · simpa [hx] using ih h
      · simp only [hx, if_neg, Bool.false_eq_true, not_false_iff]
        exact h.trans (List.suffix_cons x t)

/-- An infix with no leading whitespace survives a leading strip. -/
theorem dropWhile_keeps_infix_str {m l : List Char}
    (hm : m <:+: l) (hhead : m.dropWhile isSpaceChar = m) (hne : m ≠ []) :
    m <:+: l.dropWhile isSpaceChar := by
  rcases hm with ⟨a, b, hab⟩
  have hsuf : m ++ b <:+ l := ⟨a, by rw [← List.append_assoc, hab]⟩
  have hhead' : (m ++ b).dropWhile isSpaceChar = m ++ b := by
    rcases m with _ | ⟨c, cs⟩
    · exact absurd rfl hne
    · rw [List.cons_append, List.dropWhile_cons]
      rw [List.dropWhile_cons] at hhead
      by_cases hc : isSpaceChar c
      · exfalso
        rw [if_pos hc] at hhead
        have := congrArg List.length hhead
        have hlen : (cs.dropWhile isSpaceChar).length ≤ cs.length :=
          (List.dropWhile_suffix isSpaceChar).length_le
        simp at this
        omega
      · simp [hc]
  obtain ⟨s, hsEq⟩ := suffix_dropWhile hsuf hhead' (by simp [hne])
  exact ⟨s, b, by rw [List.append_assoc, hsEq]⟩

theorem pyStrip_keeps_infix_str {m l : List Char}
    (hm : m <:+: l)
    (hlead : m.dropWhile isSpaceChar = m)
    (htrail : m.reverse.dropWhile isSpaceChar = m.reverse)
    (hne : m ≠ []) :
    m <:+: pyStrip l := by
  have h1 : m <:+: l.dropWhile isSpaceChar :=
    dropWhile_keeps_infix_str hm hlead hne
  have h2 : m.reverse <:+: (l.dropWhile isSpaceChar).reverse :=
    List.reverse_infix.mpr h1
  have h3 : m.reverse <:+: (l.dropWhile isSpaceChar).reverse.dropWhile isSpaceChar :=
    dropWhile_keeps_infix_str h2 htrail (by simpa using hne)
  have h4 := List.reverse_infix.mpr h3
  rw [List.reverse_reverse] at h4
  exact h4

theorem head_not_space_of_pyStrip {l : List Char} {c : Char} {cs : List Char}
    (h : pyStrip l = c :: cs) : isSpaceChar c = false := by
  have hd := dropWhile_pyStrip l
  rw [h, List.dropWhile_cons] at hd
  by_cases hc : isSpaceChar c
  · exfalso
    rw [if_pos hc] at hd
    have hlen : (cs.dropWhile isSpaceChar).length ≤ cs.length :=
      (List.dropWhile_suffix isSpaceChar).length_le
    have := congrArg List.length hd
    simp at this
    omega
  · simpa using hc

theorem last_not_space_of_pyStrip {l : List Char} {c : Char} {cs : List Char}
    (h : (pyStrip l).reverse = c :: cs) : isSpaceChar c = false := by
  have hd := dropWhile_reverse_pyStrip l
  rw [h, List.dropWhile_cons] at hd
  by_cases hc : isSpaceChar c
  · exfalso
    rw [if_pos hc] at hd
    have hlen : (cs.dropWhile isSpaceChar).length ≤ cs.length :=
      (List.dropWhile_suffix isSpaceChar).length_le
    have := congrArg List.length hd
    simp at this
    omega
  · simpa using hc

theorem pyStrip_infix_self (l : List Char) : pyStrip l <:+: l := by
  have h1 : l.dropWhile isSpaceChar <:+ l := List.dropWhile_suffix isSpaceChar
  have h2 : pyStrip l <+: l.dropWhile isSpaceChar := by
    have hsuf : (l.dropWhile isSpaceChar).reverse.dropWhile isSpaceChar <:+
        (l.dropWhile isSpaceChar).reverse := List.dropWhile_suffix isSpaceChar
    have := List.reverse_prefix.mpr (by simpa using hsuf)
    simpa [pyStrip] using this
  obtain ⟨t, ht⟩ := h2
  obtain ⟨s, hs⟩ := h1
  exact ⟨s, t, by rw [List.append_assoc, ht, hs]⟩

/-- A take of a strip result still holds a non-whitespace character. -/
theorem pyStrip_take_ne_nil {l : List Char} {n : Nat}
    (hne : pyStrip l ≠ []) (hn : 0 < n) : pyStrip ((pyStrip l).take n) ≠ [] := by
  rcases h : pyStrip l with _ | ⟨c, cs⟩
  · exact absurd h hne
  · obtain ⟨m, rfl⟩ := Nat.exists_eq_succ_of_ne_zero (Nat.pos_iff_ne_zero.mp hn)
    rw [List.take_succ_cons]
    exact pyStrip_ne_nil_of_mem (List.mem_cons_self c (cs.take m))
      (head_not_space_of_pyStrip h)

/-- A proper drop of a strip result still holds a non-whitespace character. -/
theorem pyStrip_drop_ne_nil {l : List Char} {n : Nat}
    (hn : n < (pyStrip l).length) : pyStrip ((pyStrip l).drop n) ≠ [] := by
  have hrev : ((pyStrip l).drop n).reverse =
      List.take ((pyStrip l).length - n) (pyStrip l).reverse := List.reverse_drop
  rcases h : (pyStrip l).reverse with _ | ⟨c, cs⟩
  · exfalso
    have : pyStrip l = [] := by simpa using congrArg List.reverse h
    rw [this] at hn
    simp at hn
  · have hk : 0 < (pyStrip l).length - n := by omega
    obtain ⟨m, hm⟩ := Nat.exists_eq_succ_of_ne_zero (Nat.pos_iff_ne_zero.mp hk)
    have hcmem : c ∈ ((pyStrip l).drop n).reverse := by
      rw [hrev, h, hm, List.take_succ_cons]
      exact List.mem_cons_self c (cs.take m)
    exact pyStrip_ne_nil_of_mem (List.mem_reverse.mp hcmem)
      (last_not_space_of_pyStrip h)

/-! ## Theorems: job manager claims -/

theorem getJob_writeJob (s : JobStore) (jid : List Char) (j : Job) :
    getJob (writeJob s jid j) jid = some j := by
  simp [getJob, writeJob, List.find?_cons]

theorem doneStatus_ne_runningStatus : doneStatus ≠ runningStatus := by decide

theorem errorStatus_ne_runningStatus : errorStatus ≠ runningStatus := by decide

/-- Claim C1: `start_job` durably writes the job record with status
"running" before returning, so `get_job` immediately afterwards reads a
"running" record; the background unit's single later update makes the
status exactly "done" with a non-null `result_path` or exactly "error"
with a non-null `error`, never "running" again and never both terminal
outcomes at once. -/
theorem job_lifecycle (s : JobStore) (jid topic audience : List Char)
    (duration : Int) (style created now : List Char) (outcome : RunOutcome) :
    (getJob (startJob s jid topic audience duration style created).2
        (startJob s jid topic audience duration style created).1 =
      some (initialJob jid topic audience duration style created) ∧
     (initialJob jid topic audience duration style created).status = runningStatus) ∧
    (∀ j, getJob (finishJob (startJob s jid topic audience duration style created).2
            jid outcome now) jid = some j →
      ((j.status = doneStatus ∧ j.result_path ≠ none) ∨
       (j.status = errorStatus ∧ j.error ≠ none)) ∧
      j.status ≠ runningStatus ∧
      ¬(j.status = doneStatus ∧ j.status = errorStatus)) := by
  constructor
  · exact ⟨getJob_writeJob _ _ _, rfl⟩
  · intro j hj
    rw [startJob, finishJob, getJob_writeJob, getJob_writeJob] at hj
    cases outcome with
    | ok path =>
      cases hj
      refine ⟨Or.inl ⟨rfl, by simp [terminalUpdate]⟩, ?_, ?_⟩
      · simpa [terminalUpdate] using doneStatus_ne_runningStatus
      · intro hcontra
        have h1 := hcontra.1
        have h2 := hcontra.2
        rw [h1] at h2
        exact absurd h2 (by decide)
    | error msg =>
      cases hj
      refine ⟨Or.inr ⟨rfl, by simp [terminalUpdate]⟩, ?_, ?_⟩
      · simpa [terminalUpdate] using errorStatus_ne_runningStatus
      · intro hcontra
        have h1 := hcontra.1
        have h2 := hcontra.2
        rw [h1] at h2
        exact absurd h2 (by decide)

theorem job_lifecycle_witness :
    ((getJob (startJob [] "a3f9b2c1".toList "tongue".toList "general".toList 60
          "class".toList "t0".toList).2
        (startJob [] "a3f9b2c1".toList "tongue".toList "general".toList 60
          "class".toList "t0".toList).1 =
      some (initialJob "a3f9b2c1".toList "tongue".toList "general".toList 60
          "class".toList "t0".toList) ∧
     (initialJob "a3f9b2c1".toList "tongue".toList "general".toList 60
          "class".toList "t0".toList).status = runningStatus) ∧
    (((terminalUpdate (Except.ok "notes.md".toList) "t1".toList
          (initialJob "a3f9b2c1".toList "tongue".toList "general".toList 60
            "class".toList "t0".toList)).status = doneStatus ∧
      (terminalUpdate (Except.ok "notes.md".toList) "t1".toList
          (initialJob "a3f9b2c1".toList "tongue".toList "general".toList 60
            "class".toList "t0".toList)).result_path ≠ none) ∨
     ((terminalUpdate (Except.ok "notes.md".toList) "t1".toList
          (initialJob "a3f9b2c1".toList "tongue".toList "general".toList 60
            "class".toList "t0".toList)).status = errorStatus ∧
      (terminalUpdate (Except.ok "notes.md".toList) "t1".toList
          (initialJob "a3f9b2c1".toList "tongue".toList "general".toList 60
            "class".toList "t0".toList)).error ≠ none))) := by
  have h := job_lifecycle [] "a3f9b2c1".toList "tongue".toList "general".toList 60
    "class".toList "t0".toList "t1".toList (Except.ok "notes.md".toList)
  exact ⟨h.1, (h.2 _ (by rw [startJob, finishJob, getJob_writeJob, getJob_writeJob]; rfl)).1⟩

/-- Claim C10 counterexample: `get_all_jobs` does raise for some
directory states.  A file decoding to the JSON list `[]` passes the
`try/except` and raises `AttributeError` in the sort key
(`j.get("created_at", "")` on a non-dict), through `has_running_jobs`
too; and a file decoding to a dict without `"status"` lists fine but
makes `has_running_jobs` raise `KeyError`. -/
theorem getAllJobs_raises_counterexample :
    getAllJobs [JobFile.parsed (PyVal.list [])] =
      Except.error PyErr.attributeError ∧
    hasRunningJobs [JobFile.parsed (PyVal.list [])] =
      Except.error PyErr.attributeError ∧
    getAllJobs [JobFile.parsed (PyVal.dict [])] = Except.ok [PyVal.dict []] ∧
    hasRunningJobs [JobFile.parsed (PyVal.dict [])] =
      Except.error (PyErr.keyError "status".toList) :=
  ⟨rfl, rfl, rfl, rfl⟩

theorem jobValues_skips_corrupt (pre post : List JobFile) :
    jobValues (pre ++ JobFile.corrupt :: post) = jobValues (pre ++ post) := by
  simp [jobValues, List.filterMap_append, List.filterMap_cons]

theorem goodJobVal_dict (es : List (List Char × PyVal)) :
    goodJobVal (PyVal.dict es) =
      (match lookupEntry es "created_at".toList with
       | some (PyVal.str _) => true
       | none => true
       | some _ => false) := rfl

theorem pyGetDefault_of_good {v : PyVal} (h : goodJobVal v = true) :
    ∃ k, pyGetDefault v "created_at".toList (PyVal.str []) = Except.ok k ∧
      isStrVal k = true := by
  cases v with
  | dict es =>
    cases hl : lookupEntry es "created_at".toList with
    | none =>
      refine ⟨PyVal.str [], ?_, rfl⟩
      show Except.ok ((lookupEntry es "created_at".toList).getD (PyVal.str [])) = _
      rw [hl]
      rfl
    | some w =>
      cases w with
      | str s =>
        refine ⟨PyVal.str s, ?_, rfl⟩
        show Except.ok ((lookupEntry es "created_at".toList).getD (PyVal.str [])) = _
        rw [hl]
        rfl
      | dict es2 =>
        rw [goodJobVal_dict, hl] at h
        simp at h
      | num n =>
        rw [goodJobVal_dict, hl] at h
        simp at h
      | list l =>
        rw [goodJobVal_dict, hl] at h
        simp at h
      | bool b =>
        rw [goodJobVal_dict, hl] at h
        simp at h
      | null =>
        rw [goodJobVal_dict, hl] at h
        simp at h
  | str s => simp [goodJobVal] at h
  | num n => simp [goodJobVal] at h
  | list l => simp [goodJobVal] at h
  | bool b => simp [goodJobVal] at h
  | null => simp [goodJobVal] at h

theorem jobsWithKeys_of_good {jobs : List PyVal}
    (h : ∀ j ∈ jobs, goodJobVal j = true) :
    ∃ wk, jobsWithKeys jobs = Except.ok wk ∧ ∀ p ∈ wk, isStrVal p.2 = true := by
  induction jobs with
  | nil => exact ⟨[], rfl, by simp⟩
  | cons j js ih =>
    obtain ⟨k, hk, hks⟩ := pyGetDefault_of_good (h j (List.mem_cons_self j js))
    obtain ⟨wk, hwk, hall⟩ := ih (fun x hx => h x (List.mem_cons_of_mem j hx))
    refine ⟨(j, k) :: wk, ?_, ?_⟩
    · simp only [jobsWithKeys, hk, hwk]
    · intro p hp
      rcases List.mem_cons.mp hp with h1 | h1
      · rw [h1]
        exact hks
      · exact hall p h1

theorem insertByKeyDesc_strs {x : PyVal × PyVal} {l : List (PyVal × PyVal)}
    (hx : isStrVal x.2 = true) (hl : ∀ p ∈ l, isStrVal p.2 = true) :
    ∃ l', insertByKeyDesc x l = Except.ok l' ∧ ∀ p ∈ l', isStrVal p.2 = true := by
  induction l with
  | nil =>
    refine ⟨[x], rfl, ?_⟩
    intro p hp
    rw [List.mem_singleton.mp hp]
    exact hx
  | cons y ys ih =>
    have hy : isStrVal y.2 = true := hl y (List.mem_cons_self y ys)
    obtain ⟨a, ha⟩ : ∃ a, x.2 = PyVal.str a := by
      cases hx2 : x.2 <;> simp [isStrVal, hx2] at hx ⊢
    obtain ⟨b, hb⟩ : ∃ b, y.2 = PyVal.str b := by
      cases hy2 : y.2 <;> simp [isStrVal, hy2] at hy ⊢
    have hlt : pyValLt x.2 y.2 = Except.ok (strLt a b) := by
      rw [ha, hb]
      rfl
    by_cases hc : strLt a b = true
    · obtain ⟨l', hl', hall⟩ := ih (fun p hp => hl p (List.mem_cons_of_mem y hp))
      refine ⟨y :: l', ?_, ?_⟩
      · rw [hc] at hlt
        simp only [insertByKeyDesc, hlt, hl']
        rfl
      · intro p hp
        rcases List.mem_cons.mp hp with h1 | h1
        · rw [h1]
          exact hy
        · exact hall p h1
    · rw [Bool.not_eq_true] at hc
      rw [hc] at hlt
      refine ⟨x :: y :: ys, ?_, ?_⟩
      · simp only [insertByKeyDesc, hlt]
      · intro p hp
        rcases List.mem_cons.mp hp with h1 | h1
        · rw [h1]
          exact hx
        · exact hl p h1

theorem sortByKeyDesc_strs {l : List (PyVal × PyVal)}
    (hl : ∀ p ∈ l, isStrVal p.2 = true) :
    ∃ l', sortByKeyDesc l = Except.ok l' ∧ ∀ p ∈ l', isStrVal p.2 = true := by
  induction l with
  | nil => exact ⟨[], rfl, by simp⟩
  | cons x xs ih =>
    obtain ⟨l1, hl1, hall1⟩ := ih (fun p hp => hl p (List.mem_cons_of_mem x hp))
    obtain ⟨l2, hl2, hall2⟩ :=
      insertByKeyDesc_strs (hl x (List.mem_cons_self x xs)) hall1
    refine ⟨l2, ?_, hall2⟩
    simp only [sortByKeyDesc, hl1, hl2]

theorem goodJobVal_of_mem_jobValues {files : List JobFile} {j : PyVal}
    (hgood : ∀ f ∈ files, goodFile f = true) (hj : j ∈ jobValues files) :
    goodJobVal j = true := by
  unfold jobValues at hj
  obtain ⟨f, hf, hfj⟩ := List.mem_filterMap.mp hj
  cases f with
  | corrupt => simp at hfj
  | parsed v =>
    have := hgood (JobFile.parsed v) hf
    simp only [goodFile] at this
    simp only [Option.some_inj] at hfj
    rw [← hfj]
    exact this

/-- Claim C10 (amended): a job file that cannot be read or parsed as
JSON is silently omitted by `get_all_jobs`, leaving the listing of the
remaining jobs - and `has_running_jobs` - unchanged and raising nothing;
and on a directory whose parseable files all hold well-formed record
dicts, `get_all_jobs` returns normally.  The never-raises guarantee does
not extend to arbitrary directory states: a file holding valid JSON that
is not a record dict escapes the `try/except` (see the counterexample). -/
theorem getAllJobs_error_containment :
    (∀ pre post : List JobFile,
      getAllJobs (pre ++ JobFile.corrupt :: post) = getAllJobs (pre ++ post) ∧
      hasRunningJobs (pre ++ JobFile.corrupt :: post) =
        hasRunningJobs (pre ++ post)) ∧
    (∀ files : List JobFile, (∀ f ∈ files, goodFile f = true) →
      ∃ jobs, getAllJobs files = Except.ok jobs) := by
  constructor
  · intro pre post
    have h := jobValues_skips_corrupt pre post
    constructor
    · simp only [getAllJobs, h]
    · simp only [hasRunningJobs, getAllJobs, h]
  · intro files hgood
    obtain ⟨wk, hwk, hstr⟩ :=
      jobsWithKeys_of_good (fun j hj => goodJobVal_of_mem_jobValues hgood hj)
    obtain ⟨l', hl', _⟩ := sortByKeyDesc_strs hstr
    refine ⟨l'.map (fun p => p.1), ?_⟩
    simp only [getAllJobs, hwk, hl']

theorem getAllJobs_error_containment_witness :
    (getAllJobs [JobFile.corrupt,
        JobFile.parsed (PyVal.dict [("created_at".toList, PyVal.str "t0".toList)])] =
      getAllJobs
        [JobFile.parsed (PyVal.dict [("created_at".toList, PyVal.str "t0".toList)])]) ∧
    (∃ jobs, getAllJobs
        [JobFile.parsed (PyVal.dict [("created_at".toList, PyVal.str "t0".toList)])] =
      Except.ok jobs) :=
  ⟨(getAllJobs_error_containment.1 []
      [JobFile.parsed (PyVal.dict [("created_at".toList, PyVal.str "t0".toList)])]).1,
   getAllJobs_error_containment.2
      [JobFile.parsed (PyVal.dict [("created_at".toList, PyVal.str "t0".toList)])]
      (by decide)⟩

/-! ## Theorems: verifier `llm_check` claims -/

/-- Claim C7: `llm_check` never raises: with no API key configured it
makes no call and returns a passing result with an explanatory issue;
with a key but an unparseable reply it returns a failing result whose
single issue carries a 200-character excerpt of the (fence-stripped,
stripped) raw reply.  Totality over all replies holds by construction of
the model. -/
theorem llmCheck_error_handling {J : Type} (parseJson : List Char → Option J)
    (apiKey responseText : List Char) :
    (apiKey = [] →
      llmCheck parseJson apiKey responseText =
        ⟨false, LlmVerdict.fixedResult true [skipIssue]⟩) ∧
    (apiKey ≠ [] →
      parseJson (stripFence (pyStrip responseText)) = none →
      llmCheck parseJson apiKey responseText =
        ⟨true, LlmVerdict.fixedResult false
          [parseIssueMark ++ (stripFence (pyStrip responseText)).take 200]⟩) := by
  constructor
  · intro h
    rw [llmCheck, if_pos h]
  · intro h hp
    rw [llmCheck, if_neg h]
    simp [hp]

theorem llmCheck_error_handling_witness :
    (llmCheck (fun _ => (none : Option Unit)) [] "reply".toList =
      ⟨false, LlmVerdict.fixedResult true [skipIssue]⟩) ∧
    (llmCheck (fun _ => (none : Option Unit)) "sk-key".toList "not json".toList =
      ⟨true, LlmVerdict.fixedResult false
        [parseIssueMark ++ (stripFence (pyStrip "not json".toList)).take 200]⟩) :=
  ⟨(llmCheck_error_handling (fun _ => (none : Option Unit)) [] "reply".toList).1 rfl,
   (llmCheck_error_handling (fun _ => (none : Option Unit)) "sk-key".toList
      "not json".toList).2 (by decide) rfl⟩

/-! ## Theorems: citation label claims -/

/-- Claim C8 counterexample: on a preface hit `citation_label` returns
"[NOI Preface Preface]", not the "[NOI Preface]" the claim states. -/
theorem citationLabel_preface_counterexample :
    citationLabel ⟨"The preface text.".toList, "NOI-preface-1".toList,
        "preface".toList, "preface".toList,
        "https://vedabase.io/en/library/noi/preface/".toList⟩ ≠
      "[NOI Preface]".toList ∧
    citationLabel ⟨"The preface text.".toList, "NOI-preface-1".toList,
        "preface".toList, "preface".toList,
        "https://vedabase.io/en/library/noi/preface/".toList⟩ =
      "[NOI Preface Preface]".toList := by
  constructor
  · decide
  · decide

/-- Claim C8 (amended): `citation_label` always returns
`[NOI <verse.capitalize()> <section.capitalize()>]`; in particular a
preface hit yields "[NOI Preface Preface]" (there is no special preface
form). -/
theorem citationLabel_shape (h : Hit) :
    citationLabel h = "[NOI ".toList ++ pyCapitalize h.verse_number ++
      " ".toList ++ pyCapitalize h.sectionName ++ "]".toList ∧
    (h.verse_number = "preface".toList → h.sectionName = "preface".toList →
      citationLabel h = "[NOI Preface Preface]".toList) := by
  refine ⟨rfl, ?_⟩
  intro h1 h2
  rw [citationLabel, h1, h2]
  decide

theorem citationLabel_shape_witness :
    citationLabel ⟨"text".toList, "NOI-preface-1".toList, "preface".toList,
        "preface".toList, "uri".toList⟩ = "[NOI Preface Preface]".toList :=
  (citationLabel_shape ⟨"text".toList, "NOI-preface-1".toList, "preface".toList,
      "preface".toList, "uri".toList⟩).2 rfl rfl

/-! ## Theorems: notes agent claims -/

/-- Claim C6 counterexample: on zero retrieval hits `generate_notes`
raises `RuntimeError`, not the `EmptyIndexError` named by the claim
(no such exception class exists in the code base). -/
theorem generateNotes_zero_hits_counterexample :
    (generateNotes "sk-key".toList [] "plan".toList "draft".toList true []).1 =
      Except.error (PyErr.runtimeError noChunksErrMsg) ∧
    isEmptyIndexError (PyErr.runtimeError noChunksErrMsg) = false := by
  constructor
  · rfl
  · rfl

/-- Claim C6 (amended): whenever the API key is set and the retriever
returns zero hits, `generate_notes` fails — with a `RuntimeError`
carrying the "no chunks found" message (the error the spec calls
`EmptyIndexError`) — before any LLM call is made: the call list is
empty, so no plan or draft call happens. -/
theorem generateNotes_zero_hits (apiKey : List Char) (hits : List Hit)
    (planResp draftResp : List Char) (llmPass : Bool)
    (llmIssues : List (List Char))
    (hkey : apiKey ≠ []) (hhits : hits = []) :
    generateNotes apiKey hits planResp draftResp llmPass llmIssues =
      (Except.error (PyErr.runtimeError noChunksErrMsg), []) := by
  subst hhits
  rw [generateNotes, if_neg hkey, if_pos rfl]

theorem generateNotes_zero_hits_witness :
    generateNotes "sk-key".toList [] "plan".toList "draft".toList true [] =
      (Except.error (PyErr.runtimeError noChunksErrMsg), []) :=
  generateNotes_zero_hits "sk-key".toList [] "plan".toList "draft".toList true []
    (by decide) rfl

/-! ## Theorems: chunker claims -/

theorem purportChunks_nonpreface (r : VerseRecord) (hv : r.verse_number ≠ prefaceSec) :
    purportChunks r =
      (if pyStrip r.purport = [] then []
       else if (pyStrip r.purport).length ≤ PURPORT_SPLIT_CHARS then
         [makeChunk r.id r.book r.verse_number r.source_uri purportSec (pyStrip r.purport) 0]
       else
         [makeChunk r.id r.book r.verse_number r.source_uri purportSec
            ((pyStrip r.purport).take ((pyStrip r.purport).length / 2 + OVERLAP_CHARS)) 1,
          makeChunk r.id r.book r.verse_number r.source_uri purportSec
            ((pyStrip r.purport).drop ((pyStrip r.purport).length / 2 - OVERLAP_CHARS)) 2]) := by
  have hb : (translationSec == purportSec) = false := by decide
  have hp : (purportSec == purportSec) = true := by decide
  unfold purportChunks chunkRecord
  rw [if_neg hv, List.filter_append]
  have hbase : (if pyStrip (transText r) ≠ [] then
      [makeChunk r.id r.book r.verse_number r.source_uri translationSec (transText r) 0]
    else []).filter (fun c => c.sectionName == purportSec) = [] := by
    split
    · simp [List.filter, makeChunk, hb]
    · rfl
  rw [hbase, List.nil_append]
  split
  · rfl
  · split
    · simp [List.filter, makeChunk, hp]
    · simp [List.filter, makeChunk, hp]

theorem translationChunks_nonpreface (r : VerseRecord) (hv : r.verse_number ≠ prefaceSec) :
    translationChunks r =
      (if pyStrip (transText r) ≠ [] then
        [makeChunk r.id r.book r.verse_number r.source_uri translationSec (transText r) 0]
      else []) := by
  have hb : (purportSec == translationSec) = false := by decide
  have ht : (translationSec == translationSec) = true := by decide
  unfold translationChunks chunkRecord
  rw [if_neg hv, List.filter_append]
  have hrest : (if pyStrip r.purport = [] then []
     else if (pyStrip r.purport).length ≤ PURPORT_SPLIT_CHARS then
       [makeChunk r.id r.book r.verse_number r.source_uri purportSec (pyStrip r.purport) 0]
     else
       [makeChunk r.id r.book r.verse_number r.source_uri purportSec
          ((pyStrip r.purport).take ((pyStrip r.purport).length / 2 + OVERLAP_CHARS)) 1,
        makeChunk r.id r.book r.verse_number r.source_uri purportSec
          ((pyStrip r.purport).drop ((pyStrip r.purport).length / 2 - OVERLAP_CHARS)) 2]).filter
      (fun c => c.sectionName == translationSec) = [] := by
    split
    · rfl
    · split
      · simp [List.filter, makeChunk, hb]
      · simp [List.filter, makeChunk, hb]
  rw [hrest, List.append_nil]
  split
  · simp [List.filter, makeChunk, ht]
  · rfl

/-- Claim C3 counterexample: a record whose purport is a non-empty
whitespace-only string yields no purport chunk, though the claim's
"purport field is non-empty" condition holds. -/
theorem chunk_sections_counterexample :
    (⟨"NOI-1".toList, "NOI".toList, "1".toList, [], [], " ".toList,
        "uri".toList⟩ : VerseRecord).purport ≠ [] ∧
    purportChunks ⟨"NOI-1".toList, "NOI".toList, "1".toList, [], [], " ".toList,
        "uri".toList⟩ = [] := by
  constructor
  · decide
  · decide

/-- Claim C3 (amended): for a non-preface record, chunking yields a
translation chunk iff the Sanskrit or translation field is non-empty,
and purport chunk(s) iff the purport field is non-empty after stripping
whitespace. -/
theorem chunk_sections_iff (r : VerseRecord) (hv : r.verse_number ≠ prefaceSec) :
    (translationChunks r ≠ [] ↔ (r.verse_sanskrit ≠ [] ∨ r.translation ≠ [])) ∧
    (purportChunks r ≠ [] ↔ pyStrip r.purport ≠ []) := by
  constructor
  · rw [translationChunks_nonpreface r hv]
    constructor
    · intro h
      by_contra hno
      push_neg at hno
      have ht : transText r = [] := by
        unfold transText
        rw [if_neg (by simpa using hno.1), if_neg (by simpa using hno.2)]
        rfl
      rw [ht] at h
      simp [pyStrip] at h
    · intro h
      have hmem : 'T' ∈ transText r := by
        unfold transText
        rcases h with h1 | h2
        · rw [if_pos h1]
          exact List.mem_append_left _ (List.mem_append_left _
            (List.mem_append_left _ (by decide)))
        · rw [if_pos h2]
          exact List.mem_append_right _ (List.mem_append_left _ (by decide))
      have hne := pyStrip_ne_nil_of_mem hmem (by decide)
      rw [if_pos hne]
      simp
  · rw [purportChunks_nonpreface r hv]
    constructor
    · intro h
      by_cases hp : pyStrip r.purport = []
      · rw [if_pos hp] at h
        exact absurd rfl h
      · exact hp
    · intro hp
      rw [if_neg hp]
      split
      · simp
      · simp

theorem chunk_sections_iff_witness :
    (translationChunks ⟨"NOI-1".toList, "NOI".toList, "1".toList, [],
        "A sober person.".toList, "Gosvami means master.".toList,
        "uri".toList⟩ ≠ [] ↔
      (([] : List Char) ≠ [] ∨ "A sober person.".toList ≠ [])) ∧
    (purportChunks ⟨"NOI-1".toList, "NOI".toList, "1".toList, [],
        "A sober person.".toList, "Gosvami means master.".toList,
        "uri".toList⟩ ≠ [] ↔
      pyStrip "Gosvami means master.".toList ≠ []) :=
  chunk_sections_iff ⟨"NOI-1".toList, "NOI".toList, "1".toList, [],
    "A sober person.".toList, "Gosvami means master.".toList,
    "uri".toList⟩ (by decide)

/-- Claim C2 counterexample: a record whose purport carries surrounding
whitespace is chunked from the *stripped* purport, so the single chunk's
text is not the whole purport field. -/
theorem purport_split_counterexample :
    (purportChunks ⟨"NOI-1".toList, "NOI".toList, "1".toList, [], [],
        " a".toList, "uri".toList⟩).map Chunk.text ≠
      [(⟨"NOI-1".toList, "NOI".toList, "1".toList, [], [],
        " a".toList, "uri".toList⟩ : VerseRecord).purport] ∧
    (purportChunks ⟨"NOI-1".toList, "NOI".toList, "1".toList, [], [],
        " a".toList, "uri".toList⟩).map Chunk.text = ["a".toList] := by
  constructor
  · decide
  · decide

/-- Claim C2 (amended): for a non-preface record whose stripped purport
`P` is non-empty: if `P` is at most 1200 characters, exactly one purport
chunk is emitted, with text `P`; otherwise exactly two are emitted — the
slice from the start through midpoint + 200 and the slice from
midpoint − 200 through the end, each stripped of surrounding whitespace —
and each chunk's text contains the whitespace-stripped 400-character
overlap region around the midpoint. -/
theorem purport_split_chunks (r : VerseRecord) (hv : r.verse_number ≠ prefaceSec)
    (hp : pyStrip r.purport ≠ []) :
    ((pyStrip r.purport).length ≤ PURPORT_SPLIT_CHARS →
      (purportChunks r).map Chunk.text = [pyStrip r.purport]) ∧
    (PURPORT_SPLIT_CHARS < (pyStrip r.purport).length →
      (purportChunks r).map Chunk.text =
        [pyStrip ((pyStrip r.purport).take ((pyStrip r.purport).length / 2 + OVERLAP_CHARS)),
         pyStrip ((pyStrip r.purport).drop ((pyStrip r.purport).length / 2 - OVERLAP_CHARS))] ∧
      ∀ t ∈ (purportChunks r).map Chunk.text,
        pyStrip (((pyStrip r.purport).take
            ((pyStrip r.purport).length / 2 + OVERLAP_CHARS)).drop
          ((pyStrip r.purport).length / 2 - OVERLAP_CHARS)) <:+: t) := by
  rw [purportChunks_nonpreface r hv]
  constructor
  · intro hle
    rw [if_neg hp, if_pos hle]
    simp [makeChunk, pyStrip_idem]
  · intro hgt
    rw [if_neg hp, if_neg (by omega)]
    refine ⟨by simp [makeChunk], ?_⟩
    intro t ht
    simp only [List.map_cons, List.map_nil, List.mem_cons,
      List.not_mem_nil, or_false] at ht
    have hpart1 : pyStrip (((pyStrip r.purport).take
          ((pyStrip r.purport).length / 2 + OVERLAP_CHARS)).drop
        ((pyStrip r.purport).length / 2 - OVERLAP_CHARS)) <:+:
        pyStrip ((pyStrip r.purport).take
          ((pyStrip r.purport).length / 2 + OVERLAP_CHARS)) := by
      by_cases hreg : pyStrip (((pyStrip r.purport).take
          ((pyStrip r.purport).length / 2 + OVERLAP_CHARS)).drop
        ((pyStrip r.purport).length / 2 - OVERLAP_CHARS)) = []
      · rw [hreg]
        exact List.nil_infix
      · have hsfx : ((pyStrip r.purport).take
            ((pyStrip r.purport).length / 2 + OVERLAP_CHARS)).drop
            ((pyStrip r.purport).length / 2 - OVERLAP_CHARS) <:+
            (pyStrip r.purport).take
              ((pyStrip r.purport).length / 2 + OVERLAP_CHARS) :=
          List.drop_suffix _ _
        have hinf : pyStrip (((pyStrip r.purport).take
            ((pyStrip r.purport).length / 2 + OVERLAP_CHARS)).drop
            ((pyStrip r.purport).length / 2 - OVERLAP_CHARS)) <:+:
            (pyStrip r.purport).take
              ((pyStrip r.purport).length / 2 + OVERLAP_CHARS) :=
          (pyStrip_infix_self _).trans hsfx.isInfix
        exact pyStrip_keeps_infix_str hinf (dropWhile_pyStrip _)
          (dropWhile_reverse_pyStrip _) hreg
    have hpart2 : pyStrip (((pyStrip r.purport).take
          ((pyStrip r.purport).length / 2 + OVERLAP_CHARS)).drop
        ((pyStrip r.purport).length / 2 - OVERLAP_CHARS)) <:+:
        pyStrip ((pyStrip r.purport).drop
          ((pyStrip r.purport).length / 2 - OVERLAP_CHARS)) := by
      by_cases hreg : pyStrip (((pyStrip r.purport).take
          ((pyStrip r.purport).length / 2 + OVERLAP_CHARS)).drop
        ((pyStrip r.purport).length / 2 - OVERLAP_CHARS)) = []
      · rw [hreg]
        exact List.nil_infix
      · have hpfx : ((pyStrip r.purport).take
            ((pyStrip r.purport).length / 2 + OVERLAP_CHARS)).drop
            ((pyStrip r.purport).length / 2 - OVERLAP_CHARS) <+:
            (pyStrip r.purport).drop
              ((pyStrip r.purport).length / 2 - OVERLAP_CHARS) := by
          rw [List.drop_take]
          exact List.take_prefix _ _
        have hinf : pyStrip (((pyStrip r.purport).take
            ((pyStrip r.purport).length / 2 + OVERLAP_CHARS)).drop
            ((pyStrip r.purport).length / 2 - OVERLAP_CHARS)) <:+:
            (pyStrip r.purport).drop
              ((pyStrip r.purport).length / 2 - OVERLAP_CHARS) :=
          (pyStrip_infix_self _).trans hpfx.isInfix
        exact pyStrip_keeps_infix_str hinf (dropWhile_pyStrip _)
          (dropWhile_reverse_pyStrip _) hreg
    rcases ht with h1 | h2
    · rw [h1]
      simpa [makeChunk] using hpart1
    · rw [h2]
      simpa [makeChunk] using hpart2

theorem purport_split_chunks_witness :
    (purportChunks ⟨"NOI-2".toList, "NOI".toList, "2".toList, [], [],
        "Short purport.".toList, "uri".toList⟩).map Chunk.text =
      [pyStrip "Short purport.".toList] :=
  (purport_split_chunks ⟨"NOI-2".toList, "NOI".toList, "2".toList, [], [],
      "Short purport.".toList, "uri".toList⟩ (by decide) (by decide)).1 (by decide)

/-- Claim C9 counterexample: a record with a 3-character purport yields
a chunk whose text has length 3, refuting the "at least 11 characters"
invariant. -/
theorem chunk_text_length_counterexample :
    ¬ (∀ c ∈ chunkRecord ⟨"NOI-1".toList, "NOI".toList, "1".toList, [], [],
        "hi.".toList, "uri".toList⟩, c.text ≠ [] ∧ 11 ≤ c.text.length) := by
  decide

/-- Claim C9 (amended): every chunk the chunker emits has non-empty
text.  (There is no 11-character floor: only preface paragraphs have a
length gate, of more than 50 characters; translation and purport chunks
may be arbitrarily short.) -/
theorem chunk_text_nonempty (r : VerseRecord) :
    ∀ c ∈ chunkRecord r, c.text ≠ [] := by
  intro c hc
  unfold chunkRecord at hc
  by_cases hv : r.verse_number = prefaceSec
  · rw [if_pos hv] at hc
    unfold prefaceChunksOf at hc
    simp only [List.mem_map] at hc
    obtain ⟨ip, hip, rfl⟩ := hc
    rw [List.mem_filter] at hip
    obtain ⟨hip1, _⟩ := hip
    simp only [List.mem_map] at hip1
    obtain ⟨jp, hjp, hjpeq⟩ := hip1
    have hpara : jp.2 ∈ ((splitOnBlank r.purport).map pyStrip).filter
        (fun p => !p.isEmpty) := List.snd_mem_of_mem_enum hjp
    rw [List.mem_filter] at hpara
    obtain ⟨hmem, hne⟩ := hpara
    simp only [List.mem_map] at hmem
    obtain ⟨q, _, hqe⟩ := hmem
    have hip2 : ip.2 = jp.2 := by rw [← hjpeq]
    have hjne : jp.2 ≠ [] := by simpa using hne
    simp only [makeChunk, hip2, ← hqe, pyStrip_idem]
    rw [hqe]
    exact hjne
  · rw [if_neg hv] at hc
    rcases List.mem_append.mp hc with h | h
    · by_cases ht : pyStrip (transText r) ≠ []
      · rw [if_pos ht] at h
        simp only [List.mem_singleton] at h
        rw [h]
        exact ht
      · rw [if_neg ht] at h
        simp at h
    · by_cases hp : pyStrip r.purport = []
      · rw [if_pos hp] at h
        simp at h
      · rw [if_neg hp] at h
        by_cases hle : (pyStrip r.purport).length ≤ PURPORT_SPLIT_CHARS
        · rw [if_pos hle] at h
          simp only [List.mem_singleton] at h
          rw [h]
          simpa [makeChunk, pyStrip_idem] using hp
        · rw [if_neg hle] at h
          simp only [List.mem_cons, List.not_mem_nil, or_false] at h
          rcases h with h1 | h2
          · rw [h1]
            simp only [makeChunk]
            exact pyStrip_take_ne_nil hp (by simp [OVERLAP_CHARS])
          · rw [h2]
            simp only [makeChunk]
            apply pyStrip_drop_ne_nil
            rw [PURPORT_SPLIT_CHARS] at hle
            omega

theorem chunk_text_nonempty_witness :
    (makeChunk "NOI-3".toList "NOI".toList "3".toList "uri".toList purportSec
        (pyStrip "A purport.".toList) 0).text ≠ [] :=
  chunk_text_nonempty ⟨"NOI-3".toList, "NOI".toList, "3".toList, [], [],
      "A purport.".toList, "uri".toList⟩ _ (by decide)

/-! ## Theorems: rule check claims -/

theorem ruleCheck_issues_eq (notes : List Char) :
    (ruleCheck notes).issues =
      (if (missingSections notes).isEmpty then []
       else [Issue.missingSecs (missingSections notes)]) ++
      (if countCitations notes < 3 then
        [Issue.tooFewCitations (countCitations notes)] else []) ++
      (if (longExcerptsOf notes).isEmpty then []
       else [Issue.longExcerpts (longExcerptsOf notes).length]) := rfl

theorem ruleCheck_pass_eq (notes : List Char) :
    (ruleCheck notes).pass = (ruleCheck notes).issues.isEmpty := rfl

theorem ruleCheck_sections_ok_eq (notes : List Char) :
    (ruleCheck notes).sections_ok = (missingSections notes).isEmpty := rfl

/-- Claim C5: `rule_check` passes iff its issue list is empty, which
holds iff all five required headings occur, at least 3 citation matches
are found and no excerpt exceeds the configured maximum; and a notes
string containing none of the five headings is reported with all five
missing and `pass = false`. -/
theorem ruleCheck_pass_iff (notes : List Char) :
    ((ruleCheck notes).pass = true ↔ (ruleCheck notes).issues = []) ∧
    ((ruleCheck notes).issues = [] ↔
      (missingSections notes = [] ∧ 3 ≤ countCitations notes ∧
        longExcerptsOf notes = [])) ∧
    ((∀ s ∈ REQUIRED_SECTIONS, ¬ (s <:+: notes)) →
      Issue.missingSecs REQUIRED_SECTIONS ∈ (ruleCheck notes).issues ∧
      (ruleCheck notes).sections_ok = false ∧
      (ruleCheck notes).pass = false) := by
  refine ⟨?_, ?_, ?_⟩
  · rw [ruleCheck_pass_eq]
    exact List.isEmpty_iff
  · rw [ruleCheck_issues_eq]
    constructor
    · intro h
      rcases List.append_eq_nil.mp h with ⟨h12, h3⟩
      rcases List.append_eq_nil.mp h12 with ⟨h1, h2⟩
      refine ⟨?_, ?_, ?_⟩
      · by_cases hm : (missingSections notes).isEmpty
        · exact List.isEmpty_iff.mp hm
        · rw [if_neg hm] at h1
          exact absurd h1 (by simp)
      · by_cases hc : countCitations notes < 3
        · rw [if_pos hc] at h2
          exact absurd h2 (by simp)
        · omega
      · by_cases he : (longExcerptsOf notes).isEmpty
        · exact List.isEmpty_iff.mp he
        · rw [if_neg he] at h3
          exact absurd h3 (by simp)
    · intro ⟨h1, h2, h3⟩
      have hm : (missingSections notes).isEmpty = true := by simp [h1]
      have he : (longExcerptsOf notes).isEmpty = true := by simp [h3]
      have hc : ¬ (countCitations notes < 3) := by omega
      rw [if_pos hm, if_pos he, if_neg hc]
      rfl
  · intro hall
    have hms : missingSections notes = REQUIRED_SECTIONS := by
      unfold missingSections
      rw [List.filter_eq_self]
      intro s hs
      simp [hall s hs]
    have hemp : (missingSections notes).isEmpty = false := by
      rw [hms]
      decide
    refine ⟨?_, ?_, ?_⟩
    · rw [ruleCheck_issues_eq, if_neg (by simp [hemp]), hms]
      exact List.mem_append_left _ (List.mem_cons_self _ _)
    · rw [ruleCheck_sections_ok_eq, hemp]
    · rw [ruleCheck_pass_eq, ruleCheck_issues_eq, if_neg (by simp [hemp])]
      simp

theorem ruleCheck_pass_iff_witness :
    Issue.missingSecs REQUIRED_SECTIONS ∈
      (ruleCheck "A note with no headings at all.".toList).issues ∧
    (ruleCheck "A note with no headings at all.".toList).sections_ok = false ∧
    (ruleCheck "A note with no headings at all.".toList).pass = false :=
  (ruleCheck_pass_iff "A note with no headings at all.".toList).2.2 (by decide)

/-! ## Theorems: citation round-trip (claim C4) -/

theorem countCitationsAux_nil (n : Nat) : countCitationsAux n [] = 0 := by
  cases n <;> rfl

theorem countCitationsAux_cons (n : Nat) (c : Char) (cs : List Char) :
    countCitationsAux (n + 1) (c :: cs) =
      match matchCitationAt (c :: cs) with
      | some r => 1 + countCitationsAux n r
      | none => countCitationsAux n cs := rfl

theorem dropWhile_ws_head_word {V rest : List Char} (hV : V ≠ [])
    (hVw : ∀ c ∈ V, isWordChar c = true) :
    (V ++ rest).dropWhile isSpaceChar = V ++ rest := by
  cases V with
  | nil => exact absurd rfl hV
  | cons v vt =>
    rw [List.cons_append, List.dropWhile_cons]
    rw [not_isSpaceChar_of_isWordChar (hVw v (List.mem_cons_self v vt))]
    simp

theorem spanPlus_word_run {V rest : List Char} (hV : V ≠ [])
    (hVw : ∀ c ∈ V, isWordChar c = true)
    (hrest : rest.dropWhile isWordChar = rest) :
    spanPlus isWordChar (V ++ rest) = some rest := by
  cases V with
  | nil => exact absurd rfl hV
  | cons v vt =>
    rw [List.cons_append, spanPlus]
    rw [hVw v (List.mem_cons_self v vt), if_pos rfl]
    rw [dropWhile_append_of_forall (fun c hc => hVw c (List.mem_cons_of_mem v hc)),
      hrest]

theorem matchCitationWord_label {V S : List Char} (hV : V ≠ [])
    (hVw : ∀ c ∈ V, isWordChar c = true) (hS : S ≠ [])
    (hSw : ∀ c ∈ S, isWordChar c = true) :
    matchCitationWord
      ('[' :: 'N' :: 'O' :: 'I' :: ' ' :: (V ++ (' ' :: (S ++ [']'])))) =
      some [] := by
  have hlit : matchLitCI "[NOI".toList
      ('[' :: 'N' :: 'O' :: 'I' :: ' ' :: (V ++ (' ' :: (S ++ [']'])))) =
      some (' ' :: (V ++ (' ' :: (S ++ [']'])))) := by
    have hp : "[NOI".toList = ['[', 'N', 'O', 'I'] := rfl
    rw [hp]
    simp [matchLitCI]
  have hws1 : spanPlus isSpaceChar (' ' :: (V ++ (' ' :: (S ++ [']'])))) =
      some (V ++ (' ' :: (S ++ [']'])))  := by
    rw [spanPlus]
    rw [if_pos (by decide)]
    rw [dropWhile_ws_head_word hV hVw]
  have hw1 : spanPlus isWordChar (V ++ (' ' :: (S ++ [']']))) =
      some (' ' :: (S ++ [']'])) := by
    apply spanPlus_word_run hV hVw
    rw [List.dropWhile_cons]
    have hsp : isWordChar ' ' = false := by decide
    rw [hsp]
    simp
  have hws2 : spanPlus isSpaceChar (' ' :: (S ++ [']'])) = some (S ++ [']']) := by
    rw [spanPlus]
    rw [if_pos (by decide)]
    rw [dropWhile_ws_head_word hS hSw]
  have hw2 : spanPlus isWordChar (S ++ [']']) = some [']'] := by
    apply spanPlus_word_run hS hSw
    rfl
  rw [matchCitationWord, hlit, Option.some_bind, hws1, Option.some_bind, hw1,
    Option.some_bind, hws2, Option.some_bind, hw2, Option.some_bind]
  rfl

/-- Claim C4: for every hit whose verse and section fields are non-empty
words of `\w` characters (as the pipeline produces), the string built by
`citation_label` is found by the verifier's `CITATION_RE` — formatting
then detecting round-trips, with exactly one counted citation. -/
theorem citation_roundtrip (h : Hit) (hv : h.verse_number ≠ [])
    (hvw : ∀ c ∈ h.verse_number, isWordChar c = true)
    (hs : h.sectionName ≠ [])
    (hsw : ∀ c ∈ h.sectionName, isWordChar c = true) :
    countCitations (citationLabel h) = 1 := by
  obtain ⟨v, vt, hveq⟩ := List.exists_cons_of_ne_nil hv
  obtain ⟨s, st, hseq⟩ := List.exists_cons_of_ne_nil hs
  have hVne : pyCapitalize h.verse_number ≠ [] := by
    rw [hveq]
    simp [pyCapitalize]
  have hSne : pyCapitalize h.sectionName ≠ [] := by
    rw [hseq]
    simp [pyCapitalize]
  have hVw : ∀ c ∈ pyCapitalize h.verse_number, isWordChar c = true := by
    rw [hveq]
    simp only [pyCapitalize]
    intro c hc
    rcases List.mem_cons.mp hc with h1 | h1
    · rw [h1]
      exact isWordChar_toUpperChar (hvw v (hveq ▸ List.mem_cons_self v vt))
    · obtain ⟨x, hx, rfl⟩ := List.mem_map.mp h1
      exact isWordChar_toLowerChar (hvw x (hveq ▸ List.mem_cons_of_mem v hx))
  have hSw : ∀ c ∈ pyCapitalize h.sectionName, isWordChar c = true := by
    rw [hseq]
    simp only [pyCapitalize]
    intro c hc
    rcases List.mem_cons.mp hc with h1 | h1
    · rw [h1]
      exact isWordChar_toUpperChar (hsw s (hseq ▸ List.mem_cons_self s st))
    · obtain ⟨x, hx, rfl⟩ := List.mem_map.mp h1
      exact isWordChar_toLowerChar (hsw x (hseq ▸ List.mem_cons_of_mem s hx))
  have hL : citationLabel h =
      '[' :: 'N' :: 'O' :: 'I' :: ' ' :: (pyCapitalize h.verse_number ++
        (' ' :: (pyCapitalize h.sectionName ++ [']']))) := by
    rw [citationLabel]
    have h1 : "[NOI ".toList = ['[', 'N', 'O', 'I', ' '] := rfl
    have h2 : " ".toList = [' '] := rfl
    have h3 : "]".toList = [']'] := rfl
    rw [h1, h2, h3]
    simp
  have hAt : matchCitationAt
      ('[' :: 'N' :: 'O' :: 'I' :: ' ' :: (pyCapitalize h.verse_number ++
        (' ' :: (pyCapitalize h.sectionName ++ [']'])))) = some [] := by
    unfold matchCitationAt
    rw [matchCitationWord_label hVne hVw hSne hSw]
  rw [countCitations, hL, List.length_cons, countCitationsAux_cons, hAt]
  show 1 + countCitationsAux _ [] = 1
  rw [countCitationsAux_nil]

theorem citation_roundtrip_witness :
    countCitations (citationLabel ⟨"A sober person.".toList,
      "NOI-1-translation".toList, "1".toList, "translation".toList,
      "uri".toList⟩) = 1 :=
  citation_roundtrip ⟨"A sober person.".toList, "NOI-1-translation".toList,
    "1".toList, "translation".toList, "uri".toList⟩
    (by decide) (by decide) (by decide) (by decide)
